import Mathlib

/-!
Verification development for the rust-ai-tool repository.

Part 1 embeds the Python binding layer (src/bindings/python_api.py):
the RustAiTool class, whose methods marshal arguments, write a temporary
JSON fixes file, spawn the external rust-ai-tool binary, and parse its
stdout as JSON.  External behaviour (the subprocess, the json codec and
the temp-file name chosen by tempfile) is abstracted into a PyWorld
record; each method returns the Python-level result (an Except value,
error = raised exception) together with the trace of file-system and
process events the binding itself performs.

Part 2 models, from the specification, the fix-application engine that
the binding delegates to (the engine's code is not part of this
repository's sources; only the spec describes it).
-/

namespace PyApi

/-- Result of running a subprocess, as captured by subprocess.run in
_run_command: returncode, stdout and stderr. -/
structure SubprocResult where
  returncode : Int
  stdout : String
  stderr : String

/-- Minimal JSON value type standing for the python dict/list values
returned by json.loads and built by the binding. -/
inductive Json where
  | null : Json
  | jbool : Bool → Json
  | jnum : Int → Json
  | jstr : String → Json
  | jarr : List Json → Json
  | jobj : List (String × Json) → Json

/-- Python exceptions raised by the binding layer: RuntimeError from
_run_command, and the json.JSONDecodeError raised by json.loads. -/
inductive PyError where
  | runtimeError (msg : String)
  | jsonDecodeError (doc : String)

/-- File-system and process events performed by the binding layer itself:
writing the temporary fixes file, os.unlink of that file, and spawning
the external subprocess (whose own effects are external to this layer). -/
inductive FsEvent where
  | writeTempFile (path : String) (content : String)
  | unlink (path : String)
  | spawn (cmd : List String)
deriving DecidableEq

/-- External behaviour the binding depends on: the subprocess (keyed by its
full command line), the json codec, and the temporary-file name chosen by
tempfile.NamedTemporaryFile for the current call. -/
structure PyWorld where
  run : List String → SubprocResult
  jsonLoads : String → Option Json
  jsonDumps : Json → String
  tempName : String

/-- The RustAiTool object state set up by __init__: the binary path and the
configuration path (binary auto-detection and the existence check elided). -/
structure RustAiTool where
  rust_binary_path : String
  config_path : String

/-- cmd = [self.rust_binary_path, "--config", self.config_path] + args,
as built at the top of _run_command. -/
def fullCmd (tool : RustAiTool) (args : List String) : List String :=
  tool.rust_binary_path :: "--config" :: tool.config_path :: args

/-- RustAiTool._run_command (no caller passes input_data): runs the command;
returns stdout on exit code 0; on a nonzero exit code (check=True raising
CalledProcessError) raises RuntimeError with the exit code and stderr, or
stdout when stderr is empty (the python expression e.stderr or e.stdout).
The trace records the spawned command. -/
def runCommandT (w : PyWorld) (tool : RustAiTool) (args : List String) :
    Except PyError String × List FsEvent :=
  let r := w.run (fullCmd tool args)
  (if r.returncode = 0 then Except.ok r.stdout
   else Except.error (PyError.runtimeError
     ("Command failed with exit code " ++ toString r.returncode ++ ": "
       ++ (if r.stderr = "" then r.stdout else r.stderr))),
   [FsEvent.spawn (fullCmd tool args)])

/-- json.loads applied to subprocess output; none models a raised
JSONDecodeError. -/
def loadsJson (w : PyWorld) (output : String) : Except PyError Json :=
  match w.jsonLoads output with
  | none => Except.error (PyError.jsonDecodeError output)
  | some j => Except.ok j

/-- Propagate a _run_command failure, otherwise parse the output as JSON. -/
def bindLoads (w : PyWorld) : Except PyError String → Except PyError Json
  | Except.error e => Except.error e
  | Except.ok output => loadsJson w output

/-- The fixes argument of validate_fixes / apply_fixes / create_github_pr:
a dict (Json, written with json.dump) or an already-serialized string. -/
def FixesArg : Type := Sum Json String

/-- Content written into the temporary fixes file. -/
def dumpFixes (w : PyWorld) : FixesArg → String
  | Sum.inl j => w.jsonDumps j
  | Sum.inr s => s

/-- args built by analyze_project. -/
def analyzeArgs (project_path output_format : String) : List String :=
  ["analyze", project_path, "--output", output_format]

/-- RustAiTool.analyze_project: runs the analyze subcommand; parses stdout
as JSON when output_format is "json", otherwise wraps the raw output in a
one-field dict keyed "output". -/
def analyze_project (w : PyWorld) (tool : RustAiTool) (project_path : String)
    (output_format : String) : Except PyError Json × List FsEvent :=
  let res := runCommandT w tool (analyzeArgs project_path output_format)
  (match res.1 with
   | Except.error e => Except.error e
   | Except.ok output =>
     if output_format = "json" then loadsJson w output
     else Except.ok (Json.jobj [("output", Json.jstr output)]),
   res.2)

/-- args built by validate_fixes. -/
def validateArgs (project_path fixes_path : String) : List String :=
  ["validate", project_path, "--fixes", fixes_path]

/-- RustAiTool.validate_fixes: writes the fixes to a temporary JSON file,
runs the validate subcommand, parses stdout as JSON, and (in a finally
block, hence on the success path and on both exception paths) unlinks the
temporary file. -/
def validate_fixes (w : PyWorld) (tool : RustAiTool) (project_path : String)
    (fixes : FixesArg) : Except PyError Json × List FsEvent :=
  let fixes_path := w.tempName
  let res := runCommandT w tool (validateArgs project_path fixes_path)
  (bindLoads w res.1,
   FsEvent.writeTempFile fixes_path (dumpFixes w fixes)
     :: res.2 ++ [FsEvent.unlink fixes_path])

/-- args built by apply_fixes: the --backup flag is appended exactly when
create_backup is true (its python default is true). -/
def applyArgs (project_path fixes_path : String) (create_backup : Bool) :
    List String :=
  ["apply", project_path, "--fixes", fixes_path]
    ++ (if create_backup then ["--backup"] else [])

/-- RustAiTool.apply_fixes: writes the fixes to a temporary JSON file, runs
the apply subcommand (with --backup iff create_backup), parses stdout as
JSON, and unlinks the temporary file in a finally block. -/
def apply_fixes (w : PyWorld) (tool : RustAiTool) (project_path : String)
    (fixes : FixesArg) (create_backup : Bool) :
    Except PyError Json × List FsEvent :=
  let fixes_path := w.tempName
  let res := runCommandT w tool (applyArgs project_path fixes_path create_backup)
  (bindLoads w res.1,
   FsEvent.writeTempFile fixes_path (dumpFixes w fixes)
     :: res.2 ++ [FsEvent.unlink fixes_path])

/-- args built by generate_project. -/
def generateArgs (description output_dir name : String) : List String :=
  ["generate", "--description", description, "--output", output_dir,
   "--name", name]

/-- RustAiTool.generate_project: runs the generate subcommand and parses
stdout as JSON unconditionally; no temporary file. -/
def generate_project (w : PyWorld) (tool : RustAiTool)
    (description output_dir name : String) :
    Except PyError Json × List FsEvent :=
  let res := runCommandT w tool (generateArgs description output_dir name)
  (bindLoads w res.1, res.2)

/-- args built by create_github_pr. -/
def createPrArgs (owner repo branch title fixes_path : String) : List String :=
  ["github", "create-pr", "--owner", owner, "--repo", repo,
   "--branch", branch, "--title", title, "--fixes", fixes_path]

/-- RustAiTool.create_github_pr: writes the fixes to a temporary JSON file,
runs the github create-pr subcommand, parses stdout as JSON, and unlinks
the temporary file in a finally block. -/
def create_github_pr (w : PyWorld) (tool : RustAiTool)
    (owner repo branch title : String) (fixes : FixesArg) :
    Except PyError Json × List FsEvent :=
  let fixes_path := w.tempName
  let res := runCommandT w tool (createPrArgs owner repo branch title fixes_path)
  (bindLoads w res.1,
   FsEvent.writeTempFile fixes_path (dumpFixes w fixes)
     :: res.2 ++ [FsEvent.unlink fixes_path])

/-- args built by analyze_github_repo. -/
def githubAnalyzeArgs (owner repo branch : String) : List String :=
  ["github", "analyze", "--owner", owner, "--repo", repo, "--branch", branch]

/-- RustAiTool.analyze_github_repo: runs the github analyze subcommand and
parses stdout as JSON unconditionally; no temporary file. -/
def analyze_github_repo (w : PyWorld) (tool : RustAiTool)
    (owner repo branch : String) : Except PyError Json × List FsEvent :=
  let res := runCommandT w tool (githubAnalyzeArgs owner repo branch)
  (bindLoads w res.1, res.2)

/-- The path an event writes to or deletes, if any: spawning the external
subprocess is not a file-system effect of this layer. -/
def fsPathOf : FsEvent → Option String
  | FsEvent.writeTempFile p _ => some p
  | FsEvent.unlink p => some p
  | FsEvent.spawn _ => none

/-- The path deleted by an unlink event, if any. -/
def unlinkPathOf : FsEvent → Option String
  | FsEvent.unlink p => some p
  | _ => none

/-- The command line of a spawn event, if any. -/
def spawnCmdOf : FsEvent → Option (List String)
  | FsEvent.spawn c => some c
  | _ => none

end PyApi

namespace FixEngine

/-- Modelled from the spec: the Edit record of the Patch Model (spec 3),
whose code is not in this repository's sources.  The span is taken in its
already-resolved form, a character range file_path with start inclusive and
end_ exclusive; original_text is the content expected at the span and
replacement_text the text to substitute; edit_id identifies the edit in
reports. -/
structure Edit where
  file_path : String
  start : Nat
  end_ : Nat
  original_text : List Char
  replacement_text : List Char
  edit_id : String
deriving DecidableEq

/-- Modelled from the spec: a FixSet, a named ordered collection of Edits
(spec 3); the engine implementing it is not in this repository's sources. -/
structure FixSet where
  name : String
  edits : List Edit
deriving DecidableEq

/-- The project file system: path to content, none = file absent. -/
abbrev Fs : Type := String → Option (List Char)

/-- Modelled from the spec: a ProjectSnapshot (spec 3), the files relevant
to a FixSet captured once at validation start; the engine holding it is not
in this repository's sources. -/
abbrev Snapshot : Type := List (String × List Char)

/-- Write (or restore) one file: the single-file mutation primitive. -/
def writeO (fs : Fs) (p : String) (v : Option (List Char)) : Fs :=
  fun q => if q = p then v else fs q

/-- Stable insertion of an element into a list kept sorted by le: the
element goes in front of the first entry it is le-below-or-tied-with, so
earlier elements keep priority among ties. -/
def insertLe {α : Type} (le : α → α → Bool) (a : α) : List α → List α
  | [] => [a]
  | x :: xs => if le a x then a :: x :: xs else x :: insertLe le a xs

/-- Stable insertion sort by le. -/
def sortLe {α : Type} (le : α → α → Bool) (l : List α) : List α :=
  l.foldr (insertLe le) []

/-- Order on edits by resolved start offset. -/
def editLe (a b : Edit) : Bool := decide (a.start ≤ b.start)

/-- Modelled from the spec: the Conflict Detector sorts each file's edits
by resolved start offset with ties kept in FixSet order (spec 4.2); the
detector's code is not in this repository's sources. -/
def sortEdits (l : List Edit) : List Edit := sortLe editLe l

/-- Byte-wise lexicographic comparison of path characters. -/
def charsLe : List Char → List Char → Bool
  | [], _ => true
  | _ :: _, [] => false
  | a :: as, b :: bs =>
    if a.toNat < b.toNat then true
    else if b.toNat < a.toNat then false
    else charsLe as bs

/-- Lexicographic order on paths. -/
def pathLe (a b : String) : Bool := charsLe a.data b.data

/-- Sort file paths into the stable mutation order of spec 4.5 step 3. -/
def sortPaths (l : List String) : List String :=
  sortLe pathLe l

/-- Modelled from the spec: the grouping of a FixSet's edits by target file
used by the Conflict Detector (spec 4.2). -/
def editsFor (fx : FixSet) (f : String) : List Edit :=
  fx.edits.filter (fun e => e.file_path == f)

/-- The files a FixSet touches, each once. -/
def touchedFiles (fx : FixSet) : List String :=
  (fx.edits.map (fun e => e.file_path)).dedup

/-- Modelled from the spec: the issue taxonomy reported by validation
(spec 4.3 and 7); the validator's code is not in this repository's
sources. -/
inductive Issue where
  | missingFile (path : String)
  | overlapConflict (first_id second_id : String)
  | staleEdit (id : String)
deriving DecidableEq

/-- The content of a file between offsets s (inclusive) and e (exclusive). -/
def sliceAt (c : List Char) (s e : Nat) : List Char := (c.drop s).take (e - s)

/-- Modelled from the spec: the staleness check of spec 4.2 — an edit is
fresh when its span lies inside the file and original_text still matches
the content at the span; otherwise it is a StaleEdit. -/
def editFresh (c : List Char) (e : Edit) : Bool :=
  decide (e.start ≤ e.end_) && decide (e.end_ ≤ c.length)
    && (sliceAt c e.start e.end_ == e.original_text)

/-- StaleEdit issues for the edits of one file. -/
def staleIssues (c : List Char) (l : List Edit) : List Issue :=
  l.filterMap (fun e =>
    if editFresh c e then none else some (Issue.staleEdit e.edit_id))

/-- Modelled from the spec: the adjacent-pair walk of the Conflict Detector
(spec 4.2) over a list already sorted by start offset — an OverlapConflict
is reported exactly when an edit's end exceeds the next edit's start; the
detector's code is not in this repository's sources. -/
def overlapConflicts : List Edit → List Issue
  | [] => []
  | [_] => []
  | a :: b :: rest =>
    (if b.start < a.end_ then [Issue.overlapConflict a.edit_id b.edit_id]
     else [])
      ++ overlapConflicts (b :: rest)

/-- Replace the span of one edit inside a file's content. -/
def applyOne (e : Edit) (c : List Char) : List Char :=
  c.take e.start ++ e.replacement_text ++ c.drop e.end_

/-- Modelled from the spec: the in-memory dry-apply of spec 4.3 — edits
sorted by start offset are applied right-to-left (later spans first), so
each edit lands at its original offsets; ties concatenate in list order. -/
def applyEditsSorted : List Edit → List Char → List Char
  | [], c => c
  | e :: rest, c => applyOne e (applyEditsSorted rest c)

/-- The validation issues of one touched file: a missing file is a
MissingFileError; otherwise the overlap conflicts of the file's sorted
edits followed by its stale-edit reports (spec 4.3 steps 1 and 2). -/
def fileIssues (snap : Snapshot) (fx : FixSet) (f : String) : List Issue :=
  match snap.lookup f with
  | none => [Issue.missingFile f]
  | some c => overlapConflicts (sortEdits (editsFor fx f))
      ++ staleIssues c (editsFor fx f)

/-- The dry-apply result for one touched file of the snapshot. -/
def dryFile (snap : Snapshot) (fx : FixSet) (f : String) : List Char :=
  match snap.lookup f with
  | none => []
  | some c => applyEditsSorted (sortEdits (editsFor fx f)) c

/-- Modelled from the spec: the ValidationReport of spec 4.3 — per-file
issue lists, the overall is_applicable boolean (true iff zero issues across
all files) and, when applicable, the in-memory dry-apply contents. -/
structure ValidationReport where
  issues : List (String × List Issue)
  is_applicable : Bool
  dry : List (String × List Char)
deriving DecidableEq

/-- Modelled from the spec: the Validator contract validate(snapshot,
fixset) of spec 4.3 (the optional injected semantic checker is absent);
the validator's code is not in this repository's sources. -/
def validate (snap : Snapshot) (fx : FixSet) : ValidationReport :=
  let files := touchedFiles fx
  let iss := files.map (fun f => (f, fileIssues snap fx f))
  let ok := iss.all (fun p => p.2.isEmpty)
  { issues := iss
    is_applicable := ok
    dry := if ok then files.map (fun f => (f, dryFile snap fx f)) else [] }

/-- Reading one file threads the file-system state explicitly, so that
freedom from side effects is a statement, not a convention. -/
def readFileSt (fs : Fs) (p : String) : Option (List Char) × Fs := (fs p, fs)

/-- Modelled from the spec: capturing a ProjectSnapshot (spec 3) by reading
every named file through the state-threaded reader; absent files are left
out of the snapshot. -/
def takeSnapshotSt (fs : Fs) : List String → Snapshot × Fs
  | [] => ([], fs)
  | p :: ps =>
    let r := readFileSt fs p
    let rest := takeSnapshotSt r.2 ps
    ((match r.1 with
      | some c => [(p, c)]
      | none => []) ++ rest.1, rest.2)

/-- Modelled from the spec: standalone validation (spec 4.3) — snapshot the
touched files, then run the pure validator; the resulting state is the
state left by the reads. -/
def validateSt (fs : Fs) (fx : FixSet) : ValidationReport × Fs :=
  ((validate (takeSnapshotSt fs (touchedFiles fx)).1 fx),
   (takeSnapshotSt fs (touchedFiles fx)).2)

/-- Modelled from the spec: the aggregate operation status of an
ApplyResult (spec 3): committed, rolled-back, or partial. -/
inductive ApplyStatus where
  | committed
  | rolledBack
  | partialStatus
deriving DecidableEq

/-- Modelled from the spec: the outcome of one apply operation — the
resulting file system, the aggregate status, the paths written during the
run (mutations and restorations, in order) and the validation report. -/
structure ApplyResultR where
  fs : Fs
  status : ApplyStatus
  writes : List String
  report : ValidationReport

/-- Modelled from the spec: the mutation loop of the Apply Engine
(spec 4.5 step 3), whose code is not in this repository's sources.  Files
are written one at a time in the given order; done lists the paths already
mutated in this run.  If a write fails and a backup was taken, every
already-mutated file is restored from the backup and the failing path is
reported; without a backup, mutation halts with the failing path.  Returns
the final file system, the written paths and the failing path, if any. -/
def mutateFiles (failW : String → Bool) (create_backup : Bool) (backup : Fs) :
    List (String × List Char) → Fs → List String →
      Fs × List String × Option String
  | [], fs, _ => (fs, [], none)
  | (p, c) :: rest, fs, done =>
    if failW p then
      if create_backup then
        (done.foldl (fun f q => writeO f q (backup q)) fs, done, some p)
      else (fs, [], some p)
    else
      let out := mutateFiles failW create_backup backup rest
        (writeO fs p (some c)) (p :: done)
      (out.1, p :: out.2.1, out.2.2)

/-- Modelled from the spec: the Apply Engine contract apply(project_root,
fixset, create_backup) of spec 4.5, whose code is not in this repository's
sources.  It re-snapshots the project and validates; when not applicable it
rolls back immediately touching no file; otherwise it takes the pre-apply
state as backup and mutates the touched files in path-sorted order with the
validator's dry-apply contents, rolling back on a failed write.  failW
models which single-file writes fail (spec 7 MutationIOError). -/
def applyFixSet (failW : String → Bool) (create_backup : Bool) (fs : Fs)
    (fx : FixSet) : ApplyResultR :=
  let rep := (validateSt fs fx).1
  let fs0 := (validateSt fs fx).2
  if rep.is_applicable then
    let plan := (sortPaths (touchedFiles fx)).map
      (fun f => (f, (rep.dry.lookup f).getD []))
    let out := mutateFiles failW create_backup fs0 plan fs0 []
    { fs := out.1
      status := match out.2.2 with
        | none => ApplyStatus.committed
        | some _ => ApplyStatus.partialStatus
      writes := out.2.1
      report := rep }
  else
    { fs := fs0
      status := ApplyStatus.rolledBack
      writes := []
      report := rep }

end FixEngine

namespace PyApi

/-- A concrete RustAiTool object for evaluation. -/
def demoTool : RustAiTool :=
  { rust_binary_path := "rust-ai-tool", config_path := "cfg.toml" }

/-- A concrete world whose subprocess always succeeds with non-JSON output
and whose json parser always fails. -/
def demoWorldNoJson : PyWorld :=
  { run := fun _ => { returncode := 0, stdout := "plain", stderr := "" }
    jsonLoads := fun _ => none
    jsonDumps := fun _ => "dump"
    tempName := "fixes-tmp.json" }

/-- A concrete world whose subprocess always succeeds and whose json parser
always yields null. -/
def demoWorldJson : PyWorld :=
  { run := fun _ => { returncode := 0, stdout := "null", stderr := "" }
    jsonLoads := fun _ => some Json.null
    jsonDumps := fun _ => "dump"
    tempName := "fixes-tmp.json" }

end PyApi

namespace FixEngine

/-- A concrete project file system with two files. -/
def demoFs : Fs := fun p =>
  if p = "a.rs" then some ['a', 'b', 'c', 'd']
  else if p = "b.rs" then some ['x', 'y'] else none

/-- A clean one-edit FixSet replacing offsets 1..3 of a.rs. -/
def demoFix1 : FixSet :=
  { name := "one"
    edits := [{ file_path := "a.rs", start := 1, end_ := 3,
                original_text := ['b', 'c'], replacement_text := ['Z'],
                edit_id := "e1" }] }

/-- First of two overlapping edits to a.rs. -/
def demoEditO1 : Edit :=
  { file_path := "a.rs", start := 0, end_ := 2,
    original_text := ['a', 'b'], replacement_text := [], edit_id := "o1" }

/-- Second of two overlapping edits to a.rs. -/
def demoEditO2 : Edit :=
  { file_path := "a.rs", start := 1, end_ := 3,
    original_text := ['b', 'c'], replacement_text := [], edit_id := "o2" }

/-- A FixSet whose two edits overlap on a.rs. -/
def demoFixOverlap : FixSet :=
  { name := "ov", edits := [demoEditO1, demoEditO2] }

/-- A clean FixSet touching both files, for the rollback witness. -/
def demoFix2 : FixSet :=
  { name := "two"
    edits := [{ file_path := "a.rs", start := 0, end_ := 1,
                original_text := ['a'], replacement_text := ['A'],
                edit_id := "f1" },
              { file_path := "b.rs", start := 0, end_ := 1,
                original_text := ['x'], replacement_text := ['X'],
                edit_id := "f2" }] }

/-- A write-failure model under which only b.rs fails. -/
def demoFailB : String → Bool := fun q => q == "b.rs"

/-- A pure insertion at offset 1 of a.rs, first in FixSet order. -/
def demoIns1 : Edit :=
  { file_path := "a.rs", start := 1, end_ := 1,
    original_text := [], replacement_text := ['u'], edit_id := "t1" }

/-- A pure insertion at offset 1 of a.rs, second in FixSet order. -/
def demoIns2 : Edit :=
  { file_path := "a.rs", start := 1, end_ := 1,
    original_text := [], replacement_text := ['v'], edit_id := "t2" }

/-- A FixSet of the two same-offset insertions. -/
def demoFixIns : FixSet := { name := "ins", edits := [demoIns1, demoIns2] }

/-- Snapshot used by the tie-break witness. -/
def demoSnap : Snapshot := [("a.rs", ['a', 'b'])]

end FixEngine

namespace PyApi

lemma spawnCmds_validate_fixes (w : PyWorld) (tool : RustAiTool)
    (project_path : String) (fixes : FixesArg) :
    (validate_fixes w tool project_path fixes).2.filterMap spawnCmdOf
      = [fullCmd tool (validateArgs project_path w.tempName)] := rfl

lemma spawnCmds_apply_fixes (w : PyWorld) (tool : RustAiTool)
    (project_path : String) (fixes : FixesArg) (create_backup : Bool) :
    (apply_fixes w tool project_path fixes create_backup).2.filterMap spawnCmdOf
      = [fullCmd tool (applyArgs project_path w.tempName create_backup)] := rfl

end PyApi

section ClaimTheoremsPy

open PyApi

/-- Claim C6: validate_fixes and apply_fixes never themselves write to or
modify any file under the project path — the only file-system effects in
their event traces are creating and deleting the one temporary fixes file
(both effects on the tempfile path), and their single process spawn
delegates all project mutation to the external subprocess. -/
theorem claim_C6 (w : PyWorld) (tool : RustAiTool) (project_path : String)
    (fixes : FixesArg) (create_backup : Bool) :
    ((validate_fixes w tool project_path fixes).2.filterMap fsPathOf
        = [w.tempName, w.tempName])
    ∧ ((apply_fixes w tool project_path fixes create_backup).2.filterMap fsPathOf
        = [w.tempName, w.tempName])
    ∧ ((validate_fixes w tool project_path fixes).2.filterMap spawnCmdOf
        = [fullCmd tool (validateArgs project_path w.tempName)])
    ∧ ((apply_fixes w tool project_path fixes create_backup).2.filterMap spawnCmdOf
        = [fullCmd tool (applyArgs project_path w.tempName create_backup)]) :=
  ⟨rfl, rfl, rfl, rfl⟩

/-- Claim C7: the subprocess command of apply_fixes contains the apply
subcommand and contains --backup iff create_backup is true; the subprocess
command of validate_fixes contains the validate subcommand and never
contains --backup (given that none of the caller-chosen strings is itself
the literal --backup). -/
theorem claim_C7 (w : PyWorld) (tool : RustAiTool) (project_path : String)
    (fixes : FixesArg) (create_backup : Bool) (c c' : List String)
    (hc : c ∈ (apply_fixes w tool project_path fixes create_backup).2.filterMap
      spawnCmdOf)
    (hc' : c' ∈ (validate_fixes w tool project_path fixes).2.filterMap
      spawnCmdOf)
    (h1 : tool.rust_binary_path ≠ "--backup")
    (h2 : tool.config_path ≠ "--backup")
    (h3 : project_path ≠ "--backup")
    (h4 : w.tempName ≠ "--backup") :
    ("apply" ∈ c ∧ ("--backup" ∈ c ↔ create_backup = true))
      ∧ ("validate" ∈ c' ∧ "--backup" ∉ c') := by
  rw [spawnCmds_apply_fixes, List.mem_singleton] at hc
  rw [spawnCmds_validate_fixes, List.mem_singleton] at hc'
  subst hc hc'
  have n1 := Ne.symm h1
  have n2 := Ne.symm h2
  have n3 := Ne.symm h3
  have n4 := Ne.symm h4
  refine ⟨⟨?_, ?_⟩, ?_, ?_⟩
  · simp [fullCmd, applyArgs]
  · cases create_backup <;> simp [fullCmd, applyArgs, n1, n2, n3, n4]
  · simp [fullCmd, validateArgs]
  · simp [fullCmd, validateArgs, n1, n2, n3, n4]

/-- Claim C8: each of validate_fixes, apply_fixes and create_github_pr
deletes its temporary fixes file before returning — the unlink of the
tempfile path is the last event of the trace on every path (the trace is
the same whether the body returns, the subprocess fails, or the JSON parse
fails, because the unlink sits in a finally block). -/
theorem claim_C8 (w : PyWorld) (tool : RustAiTool) (project_path : String)
    (fixes : FixesArg) (create_backup : Bool)
    (owner repo branch title : String) :
    ((validate_fixes w tool project_path fixes).2.filterMap unlinkPathOf
        = [w.tempName])
    ∧ ((apply_fixes w tool project_path fixes create_backup).2.filterMap
        unlinkPathOf = [w.tempName])
    ∧ ((create_github_pr w tool owner repo branch title fixes).2.filterMap
        unlinkPathOf = [w.tempName])
    ∧ ((validate_fixes w tool project_path fixes).2.getLast?
        = some (FsEvent.unlink w.tempName))
    ∧ ((apply_fixes w tool project_path fixes create_backup).2.getLast?
        = some (FsEvent.unlink w.tempName))
    ∧ ((create_github_pr w tool owner repo branch title fixes).2.getLast?
        = some (FsEvent.unlink w.tempName)) :=
  ⟨rfl, rfl, rfl, rfl, rfl, rfl⟩

/-- Claim C9: _run_command returns the subprocess stdout exactly when the
exit code is 0, and otherwise raises a RuntimeError whose message holds the
exit code and the stderr, or the stdout when stderr is empty; the result is
exactly determined by the exit code, so no nonzero exit is swallowed. -/
theorem claim_C9 (w : PyWorld) (tool : RustAiTool) (args : List String)
    (s : String) :
    ((runCommandT w tool args).1 = Except.ok s ↔
      ((w.run (fullCmd tool args)).returncode = 0
        ∧ s = (w.run (fullCmd tool args)).stdout))
    ∧ ((runCommandT w tool args).1
        = if (w.run (fullCmd tool args)).returncode = 0
          then Except.ok (w.run (fullCmd tool args)).stdout
          else Except.error (PyError.runtimeError
            ("Command failed with exit code "
              ++ toString (w.run (fullCmd tool args)).returncode ++ ": "
              ++ (if (w.run (fullCmd tool args)).stderr = ""
                  then (w.run (fullCmd tool args)).stdout
                  else (w.run (fullCmd tool args)).stderr)))) := by
  constructor
  · by_cases h : (w.run (fullCmd tool args)).returncode = 0 <;>
      simp [runCommandT, h, eq_comm]
  · rfl

/-- Claim C10: analyze_project parses the subprocess output as JSON only
when output_format is "json" and otherwise wraps the raw output in a dict
without parsing (it succeeds even when the parser would fail); every other
result-returning method — validate_fixes, apply_fixes, generate_project,
create_github_pr, analyze_github_repo — parses the stdout unconditionally
and so raises on non-JSON output. -/
theorem claim_C10 (w w2 : PyWorld) (tool : RustAiTool)
    (project_path output_format : String) (fixes : FixesArg)
    (create_backup : Bool) (description output_dir name : String)
    (owner repo branch title : String) (j : Json)
    (hrc : ∀ cmd, (w.run cmd).returncode = 0)
    (hload : ∀ s, w.jsonLoads s = none)
    (hfmt : output_format ≠ "json")
    (hrc2 : (w2.run (fullCmd tool (analyzeArgs project_path "json"))).returncode
      = 0)
    (hj : w2.jsonLoads
      ((w2.run (fullCmd tool (analyzeArgs project_path "json"))).stdout)
      = some j) :
    ((analyze_project w tool project_path output_format).1
        = Except.ok (Json.jobj [("output",
            Json.jstr (w.run (fullCmd tool
              (analyzeArgs project_path output_format))).stdout)]))
    ∧ ((analyze_project w2 tool project_path "json").1 = Except.ok j)
    ∧ ((analyze_project w tool project_path "json").1
        = Except.error (PyError.jsonDecodeError
            (w.run (fullCmd tool (analyzeArgs project_path "json"))).stdout))
    ∧ ((validate_fixes w tool project_path fixes).1
        = Except.error (PyError.jsonDecodeError
            (w.run (fullCmd tool (validateArgs project_path
              w.tempName))).stdout))
    ∧ ((apply_fixes w tool project_path fixes create_backup).1
        = Except.error (PyError.jsonDecodeError
            (w.run (fullCmd tool (applyArgs project_path w.tempName
              create_backup))).stdout))
    ∧ ((generate_project w tool description output_dir name).1
        = Except.error (PyError.jsonDecodeError
            (w.run (fullCmd tool (generateArgs description output_dir
              name))).stdout))
    ∧ ((create_github_pr w tool owner repo branch title fixes).1
        = Except.error (PyError.jsonDecodeError
            (w.run (fullCmd tool (createPrArgs owner repo branch title
              w.tempName))).stdout))
    ∧ ((analyze_github_repo w tool owner repo branch).1
        = Except.error (PyError.jsonDecodeError
            (w.run (fullCmd tool (githubAnalyzeArgs owner repo
              branch))).stdout)) := by
  refine ⟨?_, ?_, ?_, ?_, ?_, ?_, ?_, ?_⟩ <;>
    simp [analyze_project, validate_fixes, apply_fixes, generate_project,
      create_github_pr, analyze_github_repo, runCommandT, bindLoads,
      loadsJson, hrc, hload, hfmt, hrc2, hj]

end ClaimTheoremsPy


section ClaimWitnessesPy

open PyApi

/-- Witness for claim C7 at a concrete world, tool and arguments. -/
theorem claim_C7_witness :
    ("apply" ∈ fullCmd demoTool
        (applyArgs "proj" demoWorldNoJson.tempName true)
      ∧ ("--backup" ∈ fullCmd demoTool
          (applyArgs "proj" demoWorldNoJson.tempName true) ↔ true = true))
    ∧ ("validate" ∈ fullCmd demoTool
        (validateArgs "proj" demoWorldNoJson.tempName)
      ∧ "--backup" ∉ fullCmd demoTool
        (validateArgs "proj" demoWorldNoJson.tempName)) :=
  claim_C7 demoWorldNoJson demoTool "proj" (Sum.inr "fixdata") true _ _
    (by rw [spawnCmds_apply_fixes]; exact List.mem_singleton.mpr rfl)
    (by rw [spawnCmds_validate_fixes]; exact List.mem_singleton.mpr rfl)
    (by decide) (by decide) (by decide) (by decide)

/-- Witness for claim C10 at concrete worlds: the non-JSON format wraps the
raw output, every parsing method raises on non-JSON stdout, and the json
format returns the parsed value. -/
theorem claim_C10_witness :
    ((analyze_project demoWorldNoJson demoTool "proj" "md").1
        = Except.ok (Json.jobj [("output", Json.jstr "plain")]))
    ∧ ((analyze_project demoWorldJson demoTool "proj" "json").1
        = Except.ok Json.null)
    ∧ ((analyze_project demoWorldNoJson demoTool "proj" "json").1
        = Except.error (PyError.jsonDecodeError "plain"))
    ∧ ((validate_fixes demoWorldNoJson demoTool "proj" (Sum.inr "f")).1
        = Except.error (PyError.jsonDecodeError "plain"))
    ∧ ((apply_fixes demoWorldNoJson demoTool "proj" (Sum.inr "f") true).1
        = Except.error (PyError.jsonDecodeError "plain"))
    ∧ ((generate_project demoWorldNoJson demoTool "d" "o" "n").1
        = Except.error (PyError.jsonDecodeError "plain"))
    ∧ ((create_github_pr demoWorldNoJson demoTool "me" "r" "main" "t"
        (Sum.inr "f")).1
        = Except.error (PyError.jsonDecodeError "plain"))
    ∧ ((analyze_github_repo demoWorldNoJson demoTool "me" "r" "main").1
        = Except.error (PyError.jsonDecodeError "plain")) :=
  claim_C10 demoWorldNoJson demoWorldJson demoTool "proj" "md" (Sum.inr "f")
    true "d" "o" "n" "me" "r" "main" "t" Json.null
    (fun _ => rfl) (fun _ => rfl) (by decide) rfl rfl

end ClaimWitnessesPy

namespace FixEngine

open List

lemma takeSnapshotSt_state (fs : Fs) (ps : List String) :
    (takeSnapshotSt fs ps).2 = fs := by
  induction ps with
  | nil => rfl
  | cons p ps ih => simp [takeSnapshotSt, readFileSt, ih]

lemma takeSnapshotSt_lookup (fs : Fs) (ps : List String) (f : String) :
    ((takeSnapshotSt fs ps).1.lookup f) = if f ∈ ps then fs f else none := by
  induction ps with
  | nil => simp [takeSnapshotSt]
  | cons p ps ih =>
    by_cases hf : f = p
    · subst hf
      cases h : fs f with
      | none => simp [takeSnapshotSt, readFileSt, h, ih]
      | some c => simp [takeSnapshotSt, readFileSt, h, List.lookup]
    · cases h : fs p with
      | none => simp [takeSnapshotSt, readFileSt, h, ih, hf]
      | some c =>
        have hbeq : (f == p) = false := by simp [hf]
        simp [takeSnapshotSt, readFileSt, h, List.lookup, hbeq, hf, ih]

lemma insertLe_perm {α : Type} (le : α → α → Bool) (a : α) (l : List α) :
    insertLe le a l ~ a :: l := by
  induction l with
  | nil => exact List.Perm.refl _
  | cons x xs ih =>
    by_cases h : le a x = true
    · have e : insertLe le a (x :: xs) = a :: x :: xs := by
        simp [insertLe, h]
      rw [e]
    · have h' : le a x = false := by
        revert h; cases le a x <;> simp
      have e : insertLe le a (x :: xs) = x :: insertLe le a xs := by
        simp [insertLe, h']
      rw [e]
      calc x :: insertLe le a xs
          ~ x :: a :: xs := List.Perm.cons x ih
        _ ~ a :: x :: xs := List.Perm.swap a x xs

lemma sortLe_perm {α : Type} (le : α → α → Bool) (l : List α) :
    sortLe le l ~ l := by
  induction l with
  | nil => exact List.Perm.refl _
  | cons x xs ih =>
    exact (insertLe_perm le x (sortLe le xs)).trans (List.Perm.cons x ih)

lemma insertLe_pairwise {α : Type} (le : α → α → Bool)
    (htot : ∀ a b, le a b = false → le b a = true)
    (htrans : ∀ a b c, le a b = true → le b c = true → le a c = true)
    (a : α) {l : List α}
    (hl : l.Pairwise (fun x y => le x y = true)) :
    (insertLe le a l).Pairwise (fun x y => le x y = true) := by
  induction l with
  | nil => simp [insertLe]
  | cons x xs ih =>
    rw [List.pairwise_cons] at hl
    obtain ⟨hx, hxs⟩ := hl
    by_cases h : le a x = true
    · have e : insertLe le a (x :: xs) = a :: x :: xs := by
        simp [insertLe, h]
      rw [e, List.pairwise_cons]
      refine ⟨?_, List.pairwise_cons.mpr ⟨hx, hxs⟩⟩
      intro b hb
      rcases List.mem_cons.mp hb with rfl | hb
      · exact h
      · exact htrans a x b h (hx b hb)
    · have h' : le a x = false := by
        revert h; cases le a x <;> simp
      have e : insertLe le a (x :: xs) = x :: insertLe le a xs := by
        simp [insertLe, h']
      rw [e, List.pairwise_cons]
      refine ⟨?_, ih hxs⟩
      intro b hb
      have hb' : b ∈ a :: xs := (insertLe_perm le a xs).mem_iff.mp hb
      rcases List.mem_cons.mp hb' with rfl | hb'
      · exact htot _ x h'
      · exact hx b hb'

lemma sortLe_pairwise {α : Type} (le : α → α → Bool)
    (htot : ∀ a b, le a b = false → le b a = true)
    (htrans : ∀ a b c, le a b = true → le b c = true → le a c = true)
    (l : List α) :
    (sortLe le l).Pairwise (fun x y => le x y = true) := by
  induction l with
  | nil => simp [sortLe]
  | cons x xs ih => exact insertLe_pairwise le htot htrans x ih

lemma editLe_total (a b : Edit) (h : editLe a b = false) : editLe b a = true := by
  simp [editLe] at h ⊢; omega

lemma editLe_trans (a b c : Edit) (h1 : editLe a b = true)
    (h2 : editLe b c = true) : editLe a c = true := by
  simp [editLe] at h1 h2 ⊢; omega

lemma sortEdits_perm (l : List Edit) : sortEdits l ~ l := sortLe_perm editLe l

lemma sortEdits_pairwise_start (l : List Edit) :
    (sortEdits l).Pairwise (fun a b => a.start ≤ b.start) := by
  have h := sortLe_pairwise editLe editLe_total editLe_trans l
  exact h.imp (fun hab => by simpa [editLe] using hab)

lemma overlapConflicts_eq_nil_iff (l : List Edit) :
    overlapConflicts l = [] ↔ l.Chain' (fun a b => a.end_ ≤ b.start) := by
  induction l with
  | nil => simp [overlapConflicts]
  | cons a l ih =>
    cases l with
    | nil => simp [overlapConflicts]
    | cons b t =>
      have e : overlapConflicts (a :: b :: t)
          = (if b.start < a.end_
             then [Issue.overlapConflict a.edit_id b.edit_id] else [])
            ++ overlapConflicts (b :: t) := rfl
      rw [e, List.chain'_cons]
      by_cases h : b.start < a.end_
      · have hn : ¬ a.end_ ≤ b.start := not_le.mpr h
        simp [h, hn]
      · have hn : a.end_ ≤ b.start := not_lt.mp h
        simp [h, hn, ih]

lemma overlapConflicts_eq_zip (l : List Edit) :
    overlapConflicts l = (l.zip l.tail).filterMap (fun ab =>
      if ab.2.start < ab.1.end_
      then some (Issue.overlapConflict ab.1.edit_id ab.2.edit_id)
      else none) := by
  induction l with
  | nil => rfl
  | cons a l ih =>
    cases l with
    | nil => rfl
    | cons b t =>
      have e : overlapConflicts (a :: b :: t)
          = (if b.start < a.end_
             then [Issue.overlapConflict a.edit_id b.edit_id] else [])
            ++ overlapConflicts (b :: t) := rfl
      rw [e, ih]
      by_cases h : b.start < a.end_ <;> simp [h]

lemma pairwise_disjoint_of_chain (l : List Edit)
    (hs : l.Pairwise (fun a b => a.start ≤ b.start))
    (hc : l.Chain' (fun a b => a.end_ ≤ b.start)) :
    l.Pairwise (fun a b => a.end_ ≤ b.start) := by
  induction l with
  | nil => simp
  | cons a l ih =>
    cases l with
    | nil => simp
    | cons b t =>
      rw [List.pairwise_cons] at hs
      rw [List.chain'_cons] at hc
      obtain ⟨hsa, hsbt⟩ := hs
      obtain ⟨hab, hcbt⟩ := hc
      rw [List.pairwise_cons]
      refine ⟨?_, ih hsbt hcbt⟩
      intro y hy
      rcases List.mem_cons.mp hy with rfl | hy
      · exact hab
      · have hby : b.start ≤ y.start := (List.pairwise_cons.mp hsbt).1 y hy
        omega

lemma mem_editsFor (fx : FixSet) (e : Edit) (h : e ∈ fx.edits) :
    e ∈ editsFor fx e.file_path := by
  rw [editsFor, List.mem_filter]
  exact ⟨h, by simp⟩

lemma mem_touchedFiles (fx : FixSet) (e : Edit) (h : e ∈ fx.edits) :
    e.file_path ∈ touchedFiles fx := by
  rw [touchedFiles, List.mem_dedup]
  exact List.mem_map.mpr ⟨e, h, rfl⟩

lemma fileIssues_empty_of_applicable (snap : Snapshot) (fx : FixSet)
    (f : String) (hf : f ∈ touchedFiles fx)
    (h : (validate snap fx).is_applicable = true) :
    fileIssues snap fx f = [] := by
  have h' : ((touchedFiles fx).map
      (fun g => (g, fileIssues snap fx g))).all (fun p => p.2.isEmpty)
      = true := h
  rw [List.all_eq_true] at h'
  exact List.isEmpty_iff.mp
    (h' (f, fileIssues snap fx f) (List.mem_map.mpr ⟨f, hf, rfl⟩))

lemma validate_not_applicable_of_overlap (snap : Snapshot) (fx : FixSet)
    (e1 e2 : Edit) (h1 : e1 ∈ fx.edits) (h2 : e2 ∈ fx.edits)
    (hne : e1 ≠ e2) (hfile : e1.file_path = e2.file_path)
    (hov1 : e2.start < e1.end_) (hov2 : e1.start < e2.end_) :
    (validate snap fx).is_applicable = false := by
  cases hval : (validate snap fx).is_applicable with
  | false => rfl
  | true =>
    exfalso
    have hfi : fileIssues snap fx e1.file_path = [] :=
      fileIssues_empty_of_applicable snap fx e1.file_path
        (mem_touchedFiles fx e1 h1) hval
    rw [fileIssues] at hfi
    cases hlk : snap.lookup e1.file_path with
    | none => rw [hlk] at hfi; simp at hfi
    | some c =>
      rw [hlk] at hfi
      have hov : overlapConflicts (sortEdits (editsFor fx e1.file_path)) = [] :=
        (List.append_eq_nil.mp hfi).1
      have hchain := (overlapConflicts_eq_nil_iff _).mp hov
      have hpair := pairwise_disjoint_of_chain _
        (sortEdits_pairwise_start _) hchain
      have hsym : (sortEdits (editsFor fx e1.file_path)).Pairwise
          (fun a b => a.end_ ≤ b.start ∨ b.end_ ≤ a.start) :=
        hpair.imp (fun hab => Or.inl hab)
      have hmem1 : e1 ∈ sortEdits (editsFor fx e1.file_path) :=
        (sortEdits_perm _).mem_iff.mpr (mem_editsFor fx e1 h1)
      have hmem2 : e2 ∈ sortEdits (editsFor fx e1.file_path) := by
        refine (sortEdits_perm _).mem_iff.mpr ?_
        rw [hfile]
        exact mem_editsFor fx e2 h2
      have hsymm : Symmetric
          (fun a b : Edit => a.end_ ≤ b.start ∨ b.end_ ≤ a.start) :=
        fun a b hab => hab.symm
      have := hsym.forall hsymm hmem1 hmem2 hne
      omega

end FixEngine

namespace FixEngine

lemma restore_foldl (backup : Fs) (done : List String) (fs : Fs)
    (q : String) :
    (done.foldl (fun f p => writeO f p (backup p)) fs) q
      = if q ∈ done then backup q else fs q := by
  induction done generalizing fs with
  | nil => simp
  | cons d ds ih =>
    rw [List.foldl_cons, ih]
    by_cases h : q ∈ ds
    · simp [h]
    · by_cases h2 : q = d <;> simp [h, h2, writeO]

lemma mutateFiles_ok_not_mem (failW : String → Bool) (cb : Bool)
    (backup : Fs) (f : String) :
    ∀ (plan : List (String × List Char)) (fs : Fs) (done : List String),
      (∀ pc ∈ plan, failW pc.1 = false) →
      f ∉ plan.map Prod.fst →
      (mutateFiles failW cb backup plan fs done).1 f = fs f := by
  intro plan
  induction plan with
  | nil => intro fs done _ _; rfl
  | cons pc rest ih =>
    intro fs done hfail hf
    obtain ⟨p, cp⟩ := pc
    have hp : failW p = false := hfail (p, cp) (List.mem_cons_self _ _)
    have e : mutateFiles failW cb backup ((p, cp) :: rest) fs done
        = (fun out => (out.1, p :: out.2.1, out.2.2))
            (mutateFiles failW cb backup rest (writeO fs p (some cp))
              (p :: done)) := by
      simp [mutateFiles, hp]
    rw [e]
    have hfp : f ≠ p := by
      intro hfp
      exact hf (by simp [hfp])
    have hrest : f ∉ rest.map Prod.fst := by
      intro hin
      exact hf (by simp [hin])
    have := ih (writeO fs p (some cp)) (p :: done)
      (fun pc h => hfail pc (List.mem_cons_of_mem _ h)) hrest
    simpa [writeO, hfp] using this

lemma mutateFiles_ok_mem (failW : String → Bool) (cb : Bool)
    (backup : Fs) (f : String) (c : List Char) :
    ∀ (plan : List (String × List Char)) (fs : Fs) (done : List String),
      (∀ pc ∈ plan, failW pc.1 = false) →
      (plan.map Prod.fst).Nodup →
      (f, c) ∈ plan →
      (mutateFiles failW cb backup plan fs done).1 f = some c := by
  intro plan
  induction plan with
  | nil => intro fs done _ _ hmem; simp at hmem
  | cons pc rest ih =>
    intro fs done hfail hnd hmem
    obtain ⟨p, cp⟩ := pc
    have hp : failW p = false := hfail (p, cp) (List.mem_cons_self _ _)
    have e : mutateFiles failW cb backup ((p, cp) :: rest) fs done
        = (fun out => (out.1, p :: out.2.1, out.2.2))
            (mutateFiles failW cb backup rest (writeO fs p (some cp))
              (p :: done)) := by
      simp [mutateFiles, hp]
    rw [e]
    rw [List.map_cons, List.nodup_cons] at hnd
    obtain ⟨hpn, hndr⟩ := hnd
    rcases List.mem_cons.mp hmem with heq | hmem
    · have hf : f = p := congrArg Prod.fst heq
      have hc : c = cp := congrArg Prod.snd heq
      subst hf hc
      have hnot : f ∉ rest.map Prod.fst := hpn
      have := mutateFiles_ok_not_mem failW cb backup f rest
        (writeO fs f (some c)) (f :: done)
        (fun pc h => hfail pc (List.mem_cons_of_mem _ h)) hnot
      simpa [writeO] using this
    · exact ih (writeO fs p (some cp)) (p :: done)
        (fun pc h => hfail pc (List.mem_cons_of_mem _ h)) hndr hmem

lemma mutateFiles_ok_failed (failW : String → Bool) (cb : Bool)
    (backup : Fs) :
    ∀ (plan : List (String × List Char)) (fs : Fs) (done : List String),
      (∀ pc ∈ plan, failW pc.1 = false) →
      (mutateFiles failW cb backup plan fs done).2.2 = none := by
  intro plan
  induction plan with
  | nil => intro fs done _; rfl
  | cons pc rest ih =>
    intro fs done hfail
    obtain ⟨p, cp⟩ := pc
    have hp : failW p = false := hfail (p, cp) (List.mem_cons_self _ _)
    have e : mutateFiles failW cb backup ((p, cp) :: rest) fs done
        = (fun out => (out.1, p :: out.2.1, out.2.2))
            (mutateFiles failW cb backup rest (writeO fs p (some cp))
              (p :: done)) := by
      simp [mutateFiles, hp]
    rw [e]
    exact ih (writeO fs p (some cp)) (p :: done)
      (fun pc h => hfail pc (List.mem_cons_of_mem _ h))

lemma mutateFiles_fail (failW : String → Bool) (backup : Fs)
    (fk : String) (ck : List Char) (post : List (String × List Char))
    (hfk : failW fk = true) :
    ∀ (pre : List (String × List Char)) (fs : Fs) (done : List String),
      (∀ pc ∈ pre, failW pc.1 = false) →
      (∀ q, q ∉ done → fs q = backup q) →
      (∀ q, (mutateFiles failW true backup (pre ++ (fk, ck) :: post)
        fs done).1 q = backup q)
      ∧ (∀ x ∈ (mutateFiles failW true backup (pre ++ (fk, ck) :: post)
          fs done).2.1, x ∈ pre.map Prod.fst ∨ x ∈ done)
      ∧ (mutateFiles failW true backup (pre ++ (fk, ck) :: post)
          fs done).2.2 = some fk := by
  intro pre
  induction pre with
  | nil =>
    intro fs done hpre hinv
    have e : mutateFiles failW true backup ([] ++ (fk, ck) :: post) fs done
        = (done.foldl (fun f q => writeO f q (backup q)) fs, done, some fk)
        := by
      simp [mutateFiles, hfk]
    rw [e]
    refine ⟨?_, ?_, rfl⟩
    · intro q
      show (done.foldl (fun f q => writeO f q (backup q)) fs) q = backup q
      rw [restore_foldl]
      by_cases h : q ∈ done
      · simp [h]
      · simp [h, hinv q h]
    · intro x hx
      exact Or.inr hx
  | cons pc pre ih =>
    intro fs done hpre hinv
    obtain ⟨p, cp⟩ := pc
    have hp : failW p = false := hpre (p, cp) (List.mem_cons_self _ _)
    have e : mutateFiles failW true backup
        (((p, cp) :: pre) ++ (fk, ck) :: post) fs done
        = (fun out => (out.1, p :: out.2.1, out.2.2))
            (mutateFiles failW true backup (pre ++ (fk, ck) :: post)
              (writeO fs p (some cp)) (p :: done)) := by
      simp [mutateFiles, hp]
    rw [e]
    have hinv' : ∀ q, q ∉ p :: done → writeO fs p (some cp) q = backup q := by
      intro q hq
      have hqp : q ≠ p := fun h => hq (by simp [h])
      have hqd : q ∉ done := fun h => hq (List.mem_cons_of_mem _ h)
      simpa [writeO, hqp] using hinv q hqd
    obtain ⟨ha, hb, hc⟩ := ih (writeO fs p (some cp)) (p :: done)
      (fun pc h => hpre pc (List.mem_cons_of_mem _ h)) hinv'
    refine ⟨ha, ?_, hc⟩
    intro x hx
    rcases List.mem_cons.mp hx with rfl | hx
    · exact Or.inl (by simp)
    · rcases hb x hx with h | h
      · exact Or.inl (by simp [h])
      · rcases List.mem_cons.mp h with rfl | h
        · exact Or.inl (by simp)
        · exact Or.inr h

end FixEngine

namespace FixEngine

open List

lemma lookup_map_key {β : Type} (h : String → β) (l : List String)
    (x : String) :
    ((l.map (fun f => (f, h f))).lookup x)
      = if x ∈ l then some (h x) else none := by
  induction l with
  | nil => simp
  | cons a l ih =>
    by_cases hx : x = a
    · subst hx
      simp [List.lookup]
    · have hbeq : (x == a) = false := by simp [hx]
      simp [List.lookup, hbeq, hx, ih]

lemma validate_dry_of_applicable (snap : Snapshot) (fx : FixSet)
    (h : (validate snap fx).is_applicable = true) :
    (validate snap fx).dry
      = (touchedFiles fx).map (fun f => (f, dryFile snap fx f)) := by
  have h' : ((touchedFiles fx).map
      (fun g => (g, fileIssues snap fx g))).all (fun p => p.2.isEmpty)
      = true := h
  have e : (validate snap fx).dry
      = if ((touchedFiles fx).map
            (fun g => (g, fileIssues snap fx g))).all (fun p => p.2.isEmpty)
        then (touchedFiles fx).map (fun f => (f, dryFile snap fx f))
        else [] := rfl
  rw [e, h']
  simp

lemma sortPaths_perm (l : List String) : sortPaths l ~ l :=
  sortLe_perm _ l

lemma sortPaths_touched_nodup (fx : FixSet) :
    (sortPaths (touchedFiles fx)).Nodup :=
  ((sortPaths_perm (touchedFiles fx)).nodup_iff).mpr (List.nodup_dedup _)

lemma applyFixSet_eq_of_not_applicable (failW : String → Bool) (cb : Bool)
    (fs : Fs) (fx : FixSet)
    (h : (validateSt fs fx).1.is_applicable = false) :
    applyFixSet failW cb fs fx
      = { fs := (validateSt fs fx).2
          status := ApplyStatus.rolledBack
          writes := []
          report := (validateSt fs fx).1 } := by
  rw [applyFixSet]
  simp [h]

lemma applyFixSet_eq_of_applicable (failW : String → Bool) (cb : Bool)
    (fs : Fs) (fx : FixSet)
    (h : (validateSt fs fx).1.is_applicable = true) :
    applyFixSet failW cb fs fx
      = { fs := (mutateFiles failW cb (validateSt fs fx).2
            ((sortPaths (touchedFiles fx)).map
              (fun x => (x, ((validateSt fs fx).1.dry.lookup x).getD [])))
            (validateSt fs fx).2 []).1
          status := match (mutateFiles failW cb (validateSt fs fx).2
            ((sortPaths (touchedFiles fx)).map
              (fun x => (x, ((validateSt fs fx).1.dry.lookup x).getD [])))
            (validateSt fs fx).2 []).2.2 with
            | none => ApplyStatus.committed
            | some _ => ApplyStatus.partialStatus
          writes := (mutateFiles failW cb (validateSt fs fx).2
            ((sortPaths (touchedFiles fx)).map
              (fun x => (x, ((validateSt fs fx).1.dry.lookup x).getD [])))
            (validateSt fs fx).2 []).2.1
          report := (validateSt fs fx).1 } := by
  rw [applyFixSet]
  simp [h]

end FixEngine

section ClaimTheoremsEngine

open FixEngine List

/-- Claim C1: for a FixSet that validates cleanly (no overlap, no stale
edit, no missing file) and an apply run without write failures, applying
and then re-reading any touched file yields exactly the in-memory
dry-apply content that validate produced for it on the same snapshot, and
the operation commits. -/
theorem claim_C1 (failW : String → Bool) (cb : Bool) (fs : Fs) (fx : FixSet)
    (f : String) (c : List Char)
    (happ : (validateSt fs fx).1.is_applicable = true)
    (hfail : ∀ q, failW q = false)
    (hmem : (f, c) ∈ (validateSt fs fx).1.dry) :
    (applyFixSet failW cb fs fx).fs f = some c
      ∧ (applyFixSet failW cb fs fx).status = ApplyStatus.committed := by
  have hdry : (validate (takeSnapshotSt fs (touchedFiles fx)).1 fx).dry
      = (touchedFiles fx).map
          (fun g => (g, dryFile (takeSnapshotSt fs (touchedFiles fx)).1 fx g))
      := validate_dry_of_applicable _ fx happ
  have hmem' : (f, c) ∈ (touchedFiles fx).map
      (fun g => (g, dryFile (takeSnapshotSt fs (touchedFiles fx)).1 fx g))
      := by
    rw [← hdry]; exact hmem
  obtain ⟨g, hg, hgeq⟩ := List.mem_map.mp hmem'
  have hgf : g = f := congrArg Prod.fst hgeq
  subst hgf
  have hc : dryFile (takeSnapshotSt fs (touchedFiles fx)).1 fx g = c :=
    congrArg Prod.snd hgeq
  rw [applyFixSet_eq_of_applicable failW cb fs fx happ]
  have hlk : (validateSt fs fx).1.dry.lookup g
      = some (dryFile (takeSnapshotSt fs (touchedFiles fx)).1 fx g) := by
    show (validate (takeSnapshotSt fs (touchedFiles fx)).1 fx).dry.lookup g
      = _
    rw [hdry, lookup_map_key]
    simp [hg]
  constructor
  · apply mutateFiles_ok_mem failW cb _ g c
    · intro pc _
      exact hfail pc.1
    · have e : (((sortPaths (touchedFiles fx)).map
          (fun x => (x, ((validateSt fs fx).1.dry.lookup x).getD [])))).map
          Prod.fst = sortPaths (touchedFiles fx) := by
        rw [List.map_map]
        rw [show (Prod.fst ∘ fun x : String =>
          (x, ((validateSt fs fx).1.dry.lookup x).getD ([] : List Char)))
          = id from rfl]
        exact List.map_id _
      rw [e]
      exact sortPaths_touched_nodup fx
    · refine List.mem_map.mpr ⟨g, ?_, ?_⟩
      · exact (sortPaths_perm (touchedFiles fx)).mem_iff.mpr hg
      · rw [hlk]
        simp [hc]
  · have e : (mutateFiles failW cb (validateSt fs fx).2
        ((sortPaths (touchedFiles fx)).map
          (fun x => (x, ((validateSt fs fx).1.dry.lookup x).getD [])))
        (validateSt fs fx).2 []).2.2 = none :=
      mutateFiles_ok_failed failW cb _ _ _ _ (fun pc _ => hfail pc.1)
    rw [e]

/-- Claim C2: a FixSet holding two distinct edits to the same file whose
spans properly overlap is reported not applicable by validate, and apply
on it leaves the project file system unchanged, performs no writes, and
reports a rollback. -/
theorem claim_C2 (failW : String → Bool) (cb : Bool) (fs : Fs) (fx : FixSet)
    (e1 e2 : Edit) (h1 : e1 ∈ fx.edits) (h2 : e2 ∈ fx.edits)
    (hne : e1 ≠ e2) (hfile : e1.file_path = e2.file_path)
    (hov1 : e2.start < e1.end_) (hov2 : e1.start < e2.end_) :
    (validateSt fs fx).1.is_applicable = false
      ∧ (applyFixSet failW cb fs fx).fs = fs
      ∧ (applyFixSet failW cb fs fx).writes = []
      ∧ (applyFixSet failW cb fs fx).status = ApplyStatus.rolledBack := by
  have hval : (validateSt fs fx).1.is_applicable = false :=
    validate_not_applicable_of_overlap _ fx e1 e2 h1 h2 hne hfile hov1 hov2
  rw [applyFixSet_eq_of_not_applicable failW cb fs fx hval]
  exact ⟨hval, takeSnapshotSt_state fs _, rfl, rfl⟩

/-- Claim C4: validation is side-effect free and idempotent — the file
system returned by validateSt is exactly its input, and running validateSt
again on that unchanged state yields an identical ValidationReport. -/
theorem claim_C4 (fs : Fs) (fx : FixSet) :
    (validateSt fs fx).2 = fs
      ∧ (validateSt (validateSt fs fx).2 fx).1 = (validateSt fs fx).1 := by
  have h : (validateSt fs fx).2 = fs := takeSnapshotSt_state fs _
  exact ⟨h, by rw [h]⟩

end ClaimTheoremsEngine

section ClaimTheoremsEngine2

open FixEngine List

/-- Claim C3: in an apply run with backup over the touched files in
path-sorted order, if the write of file fk fails while every file before
it succeeds, then the whole file system is restored to its exact pre-apply
content, every path written during the run (mutations and restorations)
lies among the files before fk, the files from fk on are never written,
and the result is reported Partial. -/
theorem claim_C3 (failW : String → Bool) (fs : Fs) (fx : FixSet)
    (preKeys postKeys : List String) (fk p : String)
    (happ : (validateSt fs fx).1.is_applicable = true)
    (hsplit : sortPaths (touchedFiles fx) = preKeys ++ fk :: postKeys)
    (hpre : ∀ q ∈ preKeys, failW q = false)
    (hfk : failW fk = true)
    (hp : p ∈ (applyFixSet failW true fs fx).writes) :
    (applyFixSet failW true fs fx).fs = fs
      ∧ p ∈ preKeys
      ∧ (applyFixSet failW true fs fx).status = ApplyStatus.partialStatus
      := by
  have hfs0 : (validateSt fs fx).2 = fs := takeSnapshotSt_state fs _
  rw [applyFixSet_eq_of_applicable failW true fs fx happ] at hp ⊢
  rw [hsplit, List.map_append, List.map_cons] at hp ⊢
  have hpre' : ∀ pc ∈ preKeys.map
      (fun x => (x, (((validateSt fs fx).1.dry.lookup x).getD []
        : List Char))), failW pc.1 = false := by
    intro pc hpc
    obtain ⟨q, hq, hqe⟩ := List.mem_map.mp hpc
    rw [← hqe]
    exact hpre q hq
  obtain ⟨ha, hb, hc⟩ := mutateFiles_fail failW (validateSt fs fx).2 fk
    (((validateSt fs fx).1.dry.lookup fk).getD [])
    (postKeys.map (fun x => (x, (((validateSt fs fx).1.dry.lookup x).getD []
      : List Char))))
    hfk
    (preKeys.map (fun x => (x, (((validateSt fs fx).1.dry.lookup x).getD []
      : List Char))))
    (validateSt fs fx).2 []
    hpre' (fun q _ => rfl)
  refine ⟨?_, ?_, ?_⟩
  · funext q
    exact (ha q).trans (congrFun hfs0 q)
  · rcases hb p hp with h | h
    · obtain ⟨q, hq, hqe⟩ := List.mem_map.mp h
      obtain ⟨x, hx, hxe⟩ := List.mem_map.mp hq
      rw [← hqe, ← hxe]
      exact hx
    · simp at h
  · rw [hc]

/-- Claim C5: the Conflict Detector groups edits by file and sorts each
file's group by start offset (a permutation of the group, pairwise sorted),
its reported conflicts are exactly the adjacent pairs of the sorted list
whose left end exceeds the right start, and two pure insertions at the same
offset raise no conflict and concatenate in their FixSet order in the
dry-apply result. -/
theorem claim_C5 (fxg : FixSet) (fg : String)
    (snap : Snapshot) (fx : FixSet) (f : String) (e1 e2 : Edit)
    (c : List Char) (p : Nat)
    (he : editsFor fx f = [e1, e2])
    (h1s : e1.start = p) (h1e : e1.end_ = p)
    (h2s : e2.start = p) (h2e : e2.end_ = p)
    (hsnap : snap.lookup f = some c)
    (hp : p ≤ c.length) :
    (sortEdits (editsFor fxg fg) ~ editsFor fxg fg
       ∧ (sortEdits (editsFor fxg fg)).Pairwise
           (fun a b => a.start ≤ b.start))
    ∧ overlapConflicts (sortEdits (editsFor fxg fg))
        = ((sortEdits (editsFor fxg fg)).zip
            (sortEdits (editsFor fxg fg)).tail).filterMap
            (fun ab => if ab.2.start < ab.1.end_
              then some (Issue.overlapConflict ab.1.edit_id ab.2.edit_id)
              else none)
    ∧ sortEdits (editsFor fx f) = [e1, e2]
    ∧ overlapConflicts (sortEdits (editsFor fx f)) = []
    ∧ dryFile snap fx f
        = c.take p ++ e1.replacement_text ++ e2.replacement_text
          ++ c.drop p := by
  have hsort : sortEdits (editsFor fx f) = [e1, e2] := by
    rw [he]
    show insertLe editLe e1 (insertLe editLe e2 []) = [e1, e2]
    have hle : editLe e1 e2 = true := by
      simp [editLe, h1s, h2s]
    simp [insertLe, hle]
  refine ⟨⟨sortEdits_perm _, sortEdits_pairwise_start _⟩,
    overlapConflicts_eq_zip _, hsort, ?_, ?_⟩
  · rw [hsort]
    have e : overlapConflicts [e1, e2]
        = (if e2.start < e1.end_
           then [Issue.overlapConflict e1.edit_id e2.edit_id] else [])
          ++ overlapConflicts [e2] := rfl
    rw [e]
    have hov : ¬ e2.start < e1.end_ := by
      rw [h2s, h1e]
      omega
    simp [hov, overlapConflicts]
  · have ed : dryFile snap fx f
        = applyEditsSorted (sortEdits (editsFor fx f)) c := by
      simp [dryFile, hsnap]
    rw [ed, hsort]
    show applyOne e1 (applyOne e2 c)
      = c.take p ++ e1.replacement_text ++ e2.replacement_text ++ c.drop p
    rw [applyOne, applyOne, h1s, h1e, h2s, h2e]
    have hlen : (c.take p).length = p := by
      rw [List.length_take]
      omega
    rw [show c.take p ++ e2.replacement_text ++ c.drop p
        = c.take p ++ (e2.replacement_text ++ c.drop p)
        from List.append_assoc _ _ _]
    rw [List.take_left' hlen, List.drop_left' hlen]
    simp [List.append_assoc]

end ClaimTheoremsEngine2

section ClaimWitnessesEngine

open FixEngine List

/-- Witness for claim C1 at a concrete project and FixSet. -/
theorem claim_C1_witness :
    (applyFixSet (fun _ => false) true demoFs demoFix1).fs "a.rs"
        = some ['a', 'Z', 'd']
      ∧ (applyFixSet (fun _ => false) true demoFs demoFix1).status
        = ApplyStatus.committed :=
  claim_C1 (fun _ => false) true demoFs demoFix1 "a.rs" ['a', 'Z', 'd']
    (by decide) (fun _ => rfl) (by decide)

/-- Witness for claim C2 at a concrete project and overlapping FixSet. -/
theorem claim_C2_witness :
    (validateSt demoFs demoFixOverlap).1.is_applicable = false
      ∧ (applyFixSet (fun _ => false) true demoFs demoFixOverlap).fs = demoFs
      ∧ (applyFixSet (fun _ => false) true demoFs demoFixOverlap).writes = []
      ∧ (applyFixSet (fun _ => false) true demoFs demoFixOverlap).status
        = ApplyStatus.rolledBack :=
  claim_C2 (fun _ => false) true demoFs demoFixOverlap demoEditO1 demoEditO2
    (by decide) (by decide) (by decide) rfl (by decide) (by decide)

/-- Witness for claim C3 at a concrete two-file run where b.rs fails. -/
theorem claim_C3_witness :
    (applyFixSet demoFailB true demoFs demoFix2).fs = demoFs
      ∧ "a.rs" ∈ ["a.rs"]
      ∧ (applyFixSet demoFailB true demoFs demoFix2).status
        = ApplyStatus.partialStatus :=
  claim_C3 demoFailB demoFs demoFix2 ["a.rs"] [] "b.rs" "a.rs"
    (by decide) (by decide) (by decide) rfl (by decide)

/-- Witness for claim C5 at a concrete pair of same-offset insertions. -/
theorem claim_C5_witness :
    (sortEdits (editsFor demoFixIns "a.rs") ~ editsFor demoFixIns "a.rs"
       ∧ (sortEdits (editsFor demoFixIns "a.rs")).Pairwise
           (fun a b => a.start ≤ b.start))
    ∧ overlapConflicts (sortEdits (editsFor demoFixIns "a.rs"))
        = ((sortEdits (editsFor demoFixIns "a.rs")).zip
            (sortEdits (editsFor demoFixIns "a.rs")).tail).filterMap
            (fun ab => if ab.2.start < ab.1.end_
              then some (Issue.overlapConflict ab.1.edit_id ab.2.edit_id)
              else none)
    ∧ sortEdits (editsFor demoFixIns "a.rs") = [demoIns1, demoIns2]
    ∧ overlapConflicts (sortEdits (editsFor demoFixIns "a.rs")) = []
    ∧ dryFile demoSnap demoFixIns "a.rs"
        = (['a', 'b'] : List Char).take 1 ++ ['u'] ++ ['v']
          ++ (['a', 'b'] : List Char).drop 1 :=
  claim_C5 demoFixIns "a.rs" demoSnap demoFixIns "a.rs" demoIns1 demoIns2
    ['a', 'b'] 1 (by decide) rfl rfl rfl rfl (by decide) (by decide)

end ClaimWitnessesEngine
